import Mathlib

/-
Shallow embedding of the NeuralynxIO decoder (src/neuralynx_io/neuralynx_io.py).

Python byte strings are modelled as `List Nat` (each element one byte value),
text as `List Char` (the iso-8859-1 decode maps byte n to the character with
code point n), Python exceptions as `Except String`, and the process-wide
warning stream as an explicit `List PyWarning` accumulated alongside results.
Machine integers are modelled as `Nat`/`Int` with explicit reduction modulo
2^64 where numpy uint64 arithmetic wraps.
-/

namespace NeuralynxIO

abbrev Str := List Char

/-- Warnings emitted through warnings.warn; all are UserWarning values
distinguished by their message text. -/
inductive PyWarning where
  | userWarning (msg : Str)
deriving DecidableEq

/-- HEADER_LENGTH = 16 * 1024. -/
def HEADER_LENGTH : Nat := 16 * 1024

/-- 2^64, the modulus of numpy uint64 arithmetic. -/
def U64 : Nat := 18446744073709551616

/-- Reduce to the uint64 range. -/
def u64 (n : Nat) : Nat := n % U64

/-- numpy uint64 subtraction a - b, wrapping modulo 2^64. -/
def u64sub (a b : Nat) : Nat := (u64 a + (U64 - u64 b)) % U64

/-- A Python binary file object: its full byte contents, current position and
whether it supports seek/tell. -/
structure FileObj where
  contents : List Nat
  pos : Nat
  seekable : Bool
deriving DecidableEq

/-- Python bytes.strip(b'\x00'): remove null bytes from BOTH ends. -/
def stripNull (bs : List Nat) : List Nat :=
  ((bs.dropWhile (· = 0)).reverse.dropWhile (· = 0)).reverse

/-- read_header(fid): tell, seek(0), read(HEADER_LENGTH).strip(b'\x00'),
seek back.  A Python read of n bytes returns at most n bytes and simply
returns fewer when the file is short; tell/seek on an unseekable stream raise
(io.UnsupportedOperation, a subclass of OSError/IOError). -/
def read_header (fid : FileObj) : Except String (List Nat) :=
  if fid.seekable then
    Except.ok (stripNull (fid.contents.take HEADER_LENGTH))
  else
    Except.error "io.UnsupportedOperation"

/-! ### Python text primitives

Python str methods used by the header parser, modelled on `List Char`. -/

/-- The CPython str.isspace() character set: the characters stripped by
str.strip() and split on by str.split() with no argument.  Besides the ASCII
controls 0x09-0x0d this includes the separators FS/GS/RS/US (0x1c-0x1f,
'A\x1cB'.split() == ['A', 'B'] in CPython), NEL 0x85, NBSP 0xa0, and the
Unicode space/line/paragraph separators. -/
def pyIsSpace (c : Char) : Bool :=
  c = ' ' || c = '\t' || c = '\n' || c = '\x0b' || c = '\x0c' || c = '\r' ||
  c = '\x1c' || c = '\x1d' || c = '\x1e' || c = '\x1f' ||
  c = '\x85' || c = '\xa0' || c = '\u1680' ||
  c = '\u2000' || c = '\u2001' || c = '\u2002' || c = '\u2003' || c = '\u2004' ||
  c = '\u2005' || c = '\u2006' || c = '\u2007' || c = '\u2008' || c = '\u2009' ||
  c = '\u200a' || c = '\u2028' || c = '\u2029' || c = '\u202f' || c = '\u205f' ||
  c = '\u3000'

/-- Python str.strip(): drop whitespace from both ends. -/
def pyStrip (l : Str) : Str :=
  ((l.dropWhile pyIsSpace).reverse.dropWhile pyIsSpace).reverse

/-- Python str.split(sep) for a two-character separator CRLF: split on each
occurrence of "\r\n", scanning left to right, keeping empty pieces. -/
def splitCRLF : Str → List Str
  | [] => [[]]
  | '\r' :: '\n' :: rest => [] :: splitCRLF rest
  | c :: rest =>
    match splitCRLF rest with
    | [] => [[c]]
    | h :: t => (c :: h) :: t

/-- Python str.split(sep) for a one-character separator, keeping empty
pieces ('a//b'.split('/') = ['a','','b']). -/
def splitOnChar (sep : Char) : Str → List Str
  | [] => [[]]
  | c :: rest =>
    if c = sep then [] :: splitOnChar sep rest
    else
      match splitOnChar sep rest with
      | [] => [[c]]
      | h :: t => (c :: h) :: t

/-- Helper for `words`: current-token accumulator held in reverse. -/
def wordsAux : Str → Str → List Str
  | [], acc => if acc = [] then [] else [acc.reverse]
  | c :: rest, acc =>
    if pyIsSpace c then
      if acc = [] then wordsAux rest [] else acc.reverse :: wordsAux rest []
    else wordsAux rest (c :: acc)

/-- Python str.split() with no argument: split on runs of whitespace,
discarding empty pieces. -/
def words (l : Str) : List Str := wordsAux l []

/-- Digit-run parser for Python int(): digits with single grouping
underscores allowed between digits; accumulates the value. -/
def parseDigitsAux : Nat → Str → Option Nat
  | acc, [] => some acc
  | acc, '_' :: c :: rest =>
    if c.isDigit then parseDigitsAux (acc * 10 + (c.toNat - 48)) rest else none
  | acc, c :: rest =>
    if c.isDigit then parseDigitsAux (acc * 10 + (c.toNat - 48)) rest else none

/-- Unsigned digit string for Python int(): nonempty, starts with a digit. -/
def parseDigits : Str → Option Nat
  | [] => none
  | c :: rest => if c.isDigit then parseDigitsAux (c.toNat - 48) rest else none

/-- Python int(str) on whitespace-free tokens: optional sign then digits;
returns none where Python raises ValueError. -/
def parseInt : Str → Option Int
  | '-' :: s => (parseDigits s).map (fun n => -(n : Int))
  | '+' :: s => (parseDigits s).map (fun n => (n : Int))
  | s => (parseDigits s).map (fun n => (n : Int))

/-! ### datetime.datetime -/

/-- A Python datetime.datetime value (date and time fields only). -/
structure DateTime where
  year : Int
  month : Int
  day : Int
  hour : Int
  minute : Int
  second : Int
  microsecond : Int
deriving DecidableEq

/-- Gregorian leap-year rule used by datetime. -/
def isLeapYear (y : Int) : Bool := y % 4 = 0 && (y % 100 ≠ 0 || y % 400 = 0)

/-- Days in a month for datetime's range validation. -/
def daysInMonth (y m : Int) : Int :=
  if m = 2 then (if isLeapYear y then 29 else 28)
  else if m = 4 || m = 6 || m = 9 || m = 11 then 30
  else 31

/-- The datetime.datetime constructor: validates every field and raises
ValueError when any is out of range. -/
def mkDatetime (y mo d h mi s us : Int) : Except String DateTime :=
  if 1 ≤ y ∧ y ≤ 9999 ∧ 1 ≤ mo ∧ mo ≤ 12 ∧ 1 ≤ d ∧ d ≤ daysInMonth y mo ∧
     0 ≤ h ∧ h ≤ 23 ∧ 0 ≤ mi ∧ mi ≤ 59 ∧ 0 ≤ s ∧ s ≤ 59 ∧
     0 ≤ us ∧ us ≤ 999999 then
    Except.ok ⟨y, mo, d, h, mi, s, us⟩
  else Except.error "ValueError"

/-- Message prefix of the time-string warning. -/
def timeWarnPrefix : Str := "Unable to parse time string from Neuralynx header: ".data

/-- parse_neuralynx_time_string(time_string).  The try block covers
tokenizing (token index 4 split on '/', last token with '.' replaced by ':'
split on ':', all fields through int(), and the tmp_time[3] access); its
failure warns and yields none.  The datetime construction and the
tmp_date[0..2] accesses happen in the else clause OUTSIDE the try, so an
out-of-range field or a short date token raises an uncaught error. -/
def parse_neuralynx_time_string (l : Str) :
    Except String (Option DateTime × List PyWarning) :=
  let toks := words l
  let tryRes : Option (List Int × List Int × Int) :=
    match toks[4]? with
    | none => none
    | some dateTok =>
      match (splitOnChar '/' dateTok).mapM parseInt with
      | none => none
      | some tmp_date =>
        let lastTok := toks.getLastD []
        match (splitOnChar ':' (lastTok.map
            (fun c => if c = '.' then ':' else c))).mapM parseInt with
        | none => none
        | some tmp_time =>
          match tmp_time[3]? with
          | none => none
          | some t3 => some (tmp_date, tmp_time, t3 * 1000)
  match tryRes with
  | none => Except.ok (none, [PyWarning.userWarning (timeWarnPrefix ++ l)])
  | some (tmp_date, tmp_time, tmp_microsecond) =>
    match tmp_date[2]?, tmp_date[0]?, tmp_date[1]?,
          tmp_time[0]?, tmp_time[1]?, tmp_time[2]? with
    | some y, some mo, some d, some h, some mi, some s =>
      (mkDatetime y mo d h mi s tmp_microsecond).map (fun dt => (some dt, []))
    | _, _, _, _, _, _ => Except.error "IndexError"

/-! ### Header parsing -/

/-- A value stored in the header dictionary: a string, or a parsed
datetime (which may be absent). -/
inductive HdrVal where
  | vstr (s : Str)
  | vdt (d : Option DateTime)
deriving DecidableEq

/-- A Python dict from strings to header values, in insertion order. -/
abbrev Dict := List (Str × HdrVal)

/-- Python dict assignment d[k] = v: update in place if the key exists,
otherwise append. -/
def dictInsert (d : Dict) (k : Str) (v : HdrVal) : Dict :=
  if d.any (fun p => p.1 = k) then
    d.map (fun p => if p.1 = k then (k, v) else p)
  else d ++ [(k, v)]

/-- Python dict lookup d[k] as an Option. -/
def dictGet (d : Dict) (k : Str) : Option HdrVal :=
  (d.find? (fun p => p.1 = k)).map (·.2)

/-- The expected first header line. -/
def bannerLine : Str := "######## Neuralynx Data File Header".data

/-- Message prefix of the parameter-line warning. -/
def paramWarnPrefix : Str := "Unable to parse parameter line from Neuralynx header: ".data

/-- One iteration of the parameter loop: try to unpack "-NAME VALUE" (the
leading character is dropped unchecked, the rest must split into exactly two
tokens); on failure warn and skip the line. -/
def paramStep (acc : Dict × List PyWarning) (line : Str) : Dict × List PyWarning :=
  match words (line.drop 1) with
  | [n, v] => (dictInsert acc.1 n (HdrVal.vstr v), acc.2)
  | _ => (acc.1, acc.2 ++ [PyWarning.userWarning (paramWarnPrefix ++ line)])

/-- parse_header after splitting/stripping, acting on the line list.  The
accesses hdr_lines[0], hdr_lines[2] and hdr_lines[3] are unguarded (for a
single-line header the except handler itself re-evaluates hdr_lines[1]), so
any header with fewer than four nonempty lines raises IndexError.  The
filename parse and each parameter line are guarded try/except blocks that
warn and skip. -/
def parse_header_lines (ls : List Str) : Except String (Dict × List PyWarning) :=
  match ls with
  | l0 :: l1 :: l2 :: l3 :: params => do
    let w0 : List PyWarning :=
      if l0 = bannerLine then []
      else [PyWarning.userWarning ("Unexpected start to header: ".data ++ l0)]
    let fnToks := words l1
    let d1w1 : Dict × List PyWarning :=
      if (fnToks.drop 1).take 2 = ["File".data, "Name".data] then
        (dictInsert [] "FileName".data
          (HdrVal.vstr (List.intercalate [' '] (fnToks.drop 3))), [])
      else
        ([], [PyWarning.userWarning
          ("Unable to parse original file path from Neuralynx header: ".data ++ l1)])
    let d2 := dictInsert d1w1.1 "TimeOpened".data (HdrVal.vstr (l2.drop 3))
    let o2 ← parse_neuralynx_time_string l2
    let d3 := dictInsert d2 "TimeOpened_dt".data (HdrVal.vdt o2.1)
    let d4 := dictInsert d3 "TimeClosed".data (HdrVal.vstr (l3.drop 3))
    let o3 ← parse_neuralynx_time_string l3
    let d5 := dictInsert d4 "TimeClosed_dt".data (HdrVal.vdt o3.1)
    let out := params.foldl paramStep (d5, [])
    Except.ok (out.1, w0 ++ d1w1.2 ++ o2.2 ++ o3.2 ++ out.2)
  | _ => Except.error "IndexError"

/-- The nonempty raw header lines: decode as iso-8859-1 (byte n becomes the
character with code point n), split on CRLF, keep lines that are nonempty
BEFORE stripping, then strip each. -/
def hdrLinesOf (raw : List Nat) : List Str :=
  (((splitCRLF (raw.map Char.ofNat)).filter (fun l => l ≠ [])).map pyStrip)

/-- parse_header(raw_hdr). -/
def parse_header (raw : List Nat) : Except String (Dict × List PyWarning) :=
  parse_header_lines (hdrLinesOf raw)

/-! ### Record decoding -/

/-- Little-endian value of a byte list (first byte least significant). -/
def leNat (bs : List Nat) : Nat := bs.foldr (fun b acc => b + 256 * acc) 0

/-- Interpret a little-endian value as a signed 16-bit integer
(two's complement). -/
def toSigned16 (v : Nat) : Int :=
  let w := v % 65536
  if w < 32768 then (w : Int) else (w : Int) - 65536

/-- take len bytes starting at off. -/
def byteSlice (bs : List Nat) (off len : Nat) : List Nat := (bs.drop off).take len

/-- One decoded NCS_RECORD: u64 timestamp, u32 channel number, u32 sample
frequency, u32 valid-sample count, 512 i16 samples. -/
structure NcsRecord where
  timeStamp : Nat
  channelNumber : Nat
  sampleFreq : Nat
  numValidSamples : Nat
  samples : List Int
deriving DecidableEq, Inhabited

/-- NCS_RECORD.itemsize: 8 + 4 + 4 + 4 + 2 * 512 = 1044 bytes. -/
def NCS_ITEMSIZE : Nat := 1044

/-- Decode one complete 1044-byte chunk per the NCS_RECORD layout
(little-endian fields at offsets 0, 8, 12, 16, then 512 i16 samples at 20). -/
def decodeNcsChunk (chunk : List Nat) : NcsRecord where
  timeStamp := leNat (byteSlice chunk 0 8)
  channelNumber := leNat (byteSlice chunk 8 4)
  sampleFreq := leNat (byteSlice chunk 12 4)
  numValidSamples := leNat (byteSlice chunk 16 4)
  samples := (List.range 512).map (fun i => toSigned16 (leNat (byteSlice chunk (20 + 2 * i) 2)))

/-- np.fromfile on the remaining bytes: with count = -1 read
floor(len / itemsize) complete items, silently ignoring trailing partial
bytes; with count >= 0 read at most that many. -/
def npFromfileChunks (bs : List Nat) (itemsize : Nat) (count : Int) : List (List Nat) :=
  let navail := bs.length / itemsize
  let n := if count < 0 then navail else min count.toNat navail
  (List.range n).map (fun i => byteSlice bs (i * itemsize) itemsize)

/-- read_records(fid, NCS_RECORD, record_skip, count): seek past the header
plus record_skip records, then np.fromfile.  No warning is ever emitted here
(the only divisibility warning in the module lives in estimate_record_count,
which this function does not call). -/
def read_records_ncs (fid : FileObj) (record_skip : Nat) (count : Int) :
    Except String (List NcsRecord × List PyWarning) :=
  if fid.seekable then
    Except.ok
      ((npFromfileChunks (fid.contents.drop (HEADER_LENGTH + record_skip * NCS_ITEMSIZE))
          NCS_ITEMSIZE count).map decodeNcsChunk, [])
  else Except.error "io.UnsupportedOperation"

/-- estimate_record_count(file_path, record_dtype): true division of the
post-header byte count by the record size (a float in Python, a rational
here), warning when the division is not exact. -/
def estimate_record_count (file_size itemsize : Nat) : ℚ × List PyWarning :=
  let sz := file_size - HEADER_LENGTH
  ((sz : ℚ) / (itemsize : ℚ),
   if sz % itemsize ≠ 0 then
     [PyWarning.userWarning
       "File size is not divisible by record size (some bytes unaccounted for)".data]
   else [])

/-! ### Consistency check -/

/-- np.diff on a uint64 array: consecutive differences with wraparound. -/
def npDiff64 : List Nat → List Nat
  | a :: b :: rest => u64sub b a :: npDiff64 (b :: rest)
  | _ => []

def chanWarnMsg : Str := "Channel number changed during record sequence".data
def freqWarnMsg : Str := "Sampling frequency changed during record sequence".data
def validWarnMsg : Str := "Invalid samples in one or more records".data
def dtWarnMsg : Str := "Time stamp difference tolerance exceeded".data

/-- check_ncs_records(records).  dt = np.diff(timestamps) wraps modulo 2^64;
dt - dt[0] again wraps and np.abs is the identity on uint64, so the final
test accepts only wrapped differences of 0 or 1.  Accessing dt[0] raises
IndexError whenever there are fewer than two records. -/
def check_ncs_records (recs : List NcsRecord) : Except String (Bool × List PyWarning) :=
  let dts := npDiff64 (recs.map (·.timeStamp))
  match dts, recs with
  | d0 :: _, r0 :: _ =>
    let dtabs := dts.map (fun d => u64sub d d0)
    if ¬ recs.all (fun r => r.channelNumber = r0.channelNumber) then
      Except.ok (false, [PyWarning.userWarning chanWarnMsg])
    else if ¬ recs.all (fun r => r.sampleFreq = r0.sampleFreq) then
      Except.ok (false, [PyWarning.userWarning freqWarnMsg])
    else if ¬ recs.all (fun r => r.numValidSamples = 512) then
      Except.ok (false, [PyWarning.userWarning validWarnMsg])
    else if ¬ dtabs.all (fun d => d ≤ 1) then
      Except.ok (false, [PyWarning.userWarning dtWarnMsg])
    else Except.ok (true, [])
  | _, _ => Except.error "IndexError"

/-! ### Sample flattening and per-sample timestamps -/

/-- records['Samples'].ravel(): concatenate all 512 slots of every record in
record order. -/
def ncs_data_raw (recs : List NcsRecord) : List Int := recs.flatMap (·.samples)

/-- np.arange(0, stop, step) for naturals. -/
def npArangeStep (stop step : Nat) : List Nat :=
  (List.range ((stop + step - 1) / step)).map (fun j => j * step)

/-- Round a natural number to the nearest IEEE-754 binary64 value (53-bit
significand, round half to even): the conversion numpy applies to the uint64
inputs of np.interp when it promotes them to float64.  Integers up to 2^53
are exactly representable and pass through unchanged; larger ones lose their
low bits. -/
def f64round (n : Nat) : Nat :=
  if n ≤ 2 ^ 53 then n
  else
    let e := n.log2 - 52
    let q := n / 2 ^ e
    let r := n % 2 ^ e
    let half := 2 ^ (e - 1)
    if r < half then q * 2 ^ e
    else if half < r then (q + 1) * 2 ^ e
    else (if q % 2 = 0 then q else q + 1) * 2 ^ e

theorem f64round_eq_self {n : Nat} (h : n ≤ 2 ^ 53) : f64round n = n := by
  unfold f64round
  rw [if_pos h]

/-- np.interp evaluated at one point given the first anchor and the rest:
clamps to the first value left of the range, interpolates linearly on each
segment, and holds the LAST anchor value for points right of the range (no
extrapolation).  The segment arithmetic is written in exact rationals where
numpy evaluates in float64 (its inputs already rounded through f64round by
the caller); the theorems proved below use only the clamp branches, where
float64 evaluation returns a stored (already rounded) knot value exactly. -/
def npInterpPts : ℚ → (ℚ × ℚ) → List (ℚ × ℚ) → ℚ
  | _, p, [] => p.2
  | x, p, q :: rest =>
    if x ≤ p.1 then p.2
    else if x ≤ q.1 then p.2 + (q.2 - p.2) * (x - p.1) / (q.1 - p.1)
    else npInterpPts x q rest

/-- np.interp(xs, xp, fp): raises ValueError when xp is empty (or the anchor
arrays differ in length), otherwise maps the pointwise interpolation. -/
def npInterpArr (xs xp fp : List ℚ) : Except String (List ℚ) :=
  if xp.length = fp.length then
    match xp.zip fp with
    | [] => Except.error "ValueError"
    | p :: ps => Except.ok (xs.map (fun x => npInterpPts x p ps))
  else Except.error "ValueError"

/-- .astype(np.uint64) of a nonnegative float: truncate toward zero and wrap
into the uint64 range. -/
def u64OfRat (q : ℚ) : Nat := (Int.floor q).toNat % U64

/-- The load_ncs time derivation:
np.interp(arange(num_samples), arange(0, num_samples, 512),
records['TimeStamp']).astype(np.uint64).  np.interp promotes all three
integer arrays to float64 first, which rounds every entry to the nearest
binary64 value (the identity up to 2^53). -/
def ncs_times (recs : List NcsRecord) : Except String (List Nat) :=
  let num_samples := 512 * recs.length
  let xs := (List.range num_samples).map (fun i => (Nat.cast (f64round i) : ℚ))
  let xp := (npArangeStep num_samples 512).map (fun a => (Nat.cast (f64round a) : ℚ))
  let fp := recs.map (fun r => (Nat.cast (f64round r.timeStamp) : ℚ))
  (npInterpArr xs xp fp).map (List.map u64OfRat)

/-! ### Definitions taken from the specification's words

These follow the spec text, not the source; the correction theorems compare
them with the behaviour of the embedded code. -/

/-- Signed consecutive timestamp differences (exact integers, no wrap). -/
def intDiffs : List Nat → List Int
  | a :: b :: rest => ((b : Int) - (a : Int)) :: intDiffs (b :: rest)
  | _ => []

/-- Modelled from the spec: the timestamp-uniformity condition as the spec
words it, |Δt_i − Δt_0| ≤ 1 microsecond over true (unwrapped) differences. -/
def specTimestampUniform (recs : List NcsRecord) : Prop :=
  ∀ d ∈ intDiffs (recs.map (·.timeStamp)),
    |d - (intDiffs (recs.map (·.timeStamp))).headI| ≤ 1

instance (recs : List NcsRecord) : Decidable (specTimestampUniform recs) := by
  unfold specTimestampUniform; infer_instance

/-- Modelled from the spec: the four record-similarity conditions exactly as
the claim words them — constant channel id, constant declared sample rate,
every valid-sample count 512, and the spec's exact-arithmetic timestamp
condition |Δt_i − Δt_0| ≤ 1. -/
def specRecordsSimilar (recs : List NcsRecord) : Prop :=
  (∀ r ∈ recs, r.channelNumber = recs.headI.channelNumber) ∧
  (∀ r ∈ recs, r.sampleFreq = recs.headI.sampleFreq) ∧
  (∀ r ∈ recs, r.numValidSamples = 512) ∧
  specTimestampUniform recs

instance (recs : List NcsRecord) : Decidable (specRecordsSimilar recs) := by
  unfold specRecordsSimilar; infer_instance

/-- Modelled from the spec: the final record's trailing samples "extrapolate
using the same local slope as the preceding inter-record gap", i.e. a value v
at sample index i beyond the last anchor aLast satisfies
512 * (v − tLast) = (i − aLast) * (tLast − tPrev). -/
def specExtrapRel (tPrev tLast aLast i v : Int) : Prop :=
  512 * (v - tLast) = (i - aLast) * (tLast - tPrev)

instance (a b c d e : Int) : Decidable (specExtrapRel a b c d e) := by
  unfold specExtrapRel; infer_instance

/-! ## Helper lemmas -/

theorem stripNull_decomp (l : List Nat) :
    ∃ a b, l = List.replicate a 0 ++ stripNull l ++ List.replicate b 0 ∧
      (stripNull l).head? ≠ some 0 ∧ (stripNull l).getLast? ≠ some 0 := by
  unfold stripNull
  set z : Nat → Bool := fun x => decide (x = 0) with hz
  set m : List Nat := l.dropWhile z with hm
  set k : List Nat := m.reverse.dropWhile z with hk
  have hmhead : m.head? ≠ some 0 := by
    intro hc
    have := List.head?_dropWhile_not z l
    rw [← hm, hc] at this
    simp [hz] at this
  have hkhead : k.head? ≠ some 0 := by
    intro hc
    have := List.head?_dropWhile_not z m.reverse
    rw [← hk, hc] at this
    simp [hz] at this
  have hl1 : l = l.takeWhile z ++ m := (List.takeWhile_append_dropWhile z l).symm
  have hrep1 : l.takeWhile z = List.replicate (l.takeWhile z).length 0 := by
    rw [List.eq_replicate_iff]
    exact ⟨rfl, fun b hb => by simpa [hz] using List.mem_takeWhile_imp hb⟩
  have hl2 : m.reverse = m.reverse.takeWhile z ++ k := (List.takeWhile_append_dropWhile z m.reverse).symm
  have hrep2 : m.reverse.takeWhile z = List.replicate (m.reverse.takeWhile z).length 0 := by
    rw [List.eq_replicate_iff]
    exact ⟨rfl, fun b hb => by simpa [hz] using List.mem_takeWhile_imp hb⟩
  refine ⟨(l.takeWhile z).length, (m.reverse.takeWhile z).length, ?_, ?_, ?_⟩
  · have hm2 : m = k.reverse ++ List.replicate (m.reverse.takeWhile z).length 0 := by
      have h := congrArg List.reverse hl2
      rw [List.reverse_reverse, List.reverse_append] at h
      have h2 : (m.reverse.takeWhile z).reverse = List.replicate (m.reverse.takeWhile z).length 0 := by
        conv_lhs => rw [hrep2]
        rw [List.reverse_replicate]
      rw [h2] at h
      exact h
    calc l = l.takeWhile z ++ m := hl1
      _ = l.takeWhile z ++ (k.reverse ++ List.replicate (m.reverse.takeWhile z).length 0) := by
          rw [← hm2]
      _ = List.replicate (l.takeWhile z).length 0 ++ (k.reverse ++ List.replicate (m.reverse.takeWhile z).length 0) := by
          conv_lhs => rw [hrep1]
      _ = List.replicate (l.takeWhile z).length 0 ++ k.reverse ++ List.replicate (m.reverse.takeWhile z).length 0 := by
          rw [List.append_assoc]
  · -- head of k.reverse is the last of k; k is a suffix of m.reverse whose last is m's head
    rcases hke : k with _ | ⟨c, t⟩
    · simp
    · rw [← hke]
      have hkne : k ≠ [] := by simp [hke]
      obtain ⟨pre, hpre⟩ := List.dropWhile_suffix (l := m.reverse) z
      rw [List.head?_reverse]
      rw [← hk] at hpre
      have : m.reverse.getLast? = k.getLast? := by
        rw [← hpre, List.getLast?_append_of_ne_nil _ hkne]
      rw [← this, List.getLast?_reverse]
      exact hmhead
  · rw [List.getLast?_reverse]
    exact hkhead

theorem stripNull_length_le (l : List Nat) : (stripNull l).length ≤ l.length := by
  obtain ⟨a, b, hdec, -, -⟩ := stripNull_decomp l
  have := congrArg List.length hdec
  simp at this
  omega

/-! ## C4: read_header strips null bytes from both ends, not only the end -/

/-- Modelled from the spec: "the first 16384 bytes verbatim except that null
bytes are stripped only from the end". -/
def specStripTrailingOnly (bs : List Nat) : List Nat :=
  (bs.reverse.dropWhile (· = 0)).reverse

/-- A seekable source whose 16384-byte header region starts with a null byte
followed by the byte 65 and then null padding. -/
def fC4 : FileObj := ⟨0 :: 65 :: List.replicate 16382 0, 0, true⟩

theorem dropWhile_zero_replicate (n : Nat) (l : List Nat) :
    (List.replicate n 0 ++ l).dropWhile (fun x => decide (x = 0)) =
      l.dropWhile (fun x => decide (x = 0)) := by
  induction n with
  | zero => simp
  | succ m ih =>
    rw [List.replicate_succ, List.cons_append, List.dropWhile_cons]
    simp

/-- C4 counterexample: read_header strips the LEADING null byte as well, so
it returns [65] where the claimed trailing-only stripping keeps [0, 65]. -/
theorem read_header_c4_counterexample :
    read_header fC4 = Except.ok [65] ∧
    specStripTrailingOnly (fC4.contents.take HEADER_LENGTH) = [0, 65] ∧
    ([65] : List Nat) ≠ [0, 65] := by
  have hlen : fC4.contents.length = 16384 := by
    show (0 :: 65 :: List.replicate 16382 0).length = 16384
    rw [List.length_cons, List.length_cons, List.length_replicate]
  have htake : fC4.contents.take HEADER_LENGTH = 0 :: 65 :: List.replicate 16382 0 :=
    List.take_of_length_le (by rw [hlen]; norm_num [HEADER_LENGTH])
  refine ⟨?_, ?_, by decide⟩
  · show Except.ok (stripNull (fC4.contents.take HEADER_LENGTH)) = Except.ok [65]
    rw [htake]
    unfold stripNull
    rw [List.dropWhile_cons, List.dropWhile_cons]
    simp only [decide_eq_true_eq, reduceIte]
    rw [if_neg (by norm_num : ¬ (65 = 0))]
    rw [List.reverse_cons, List.reverse_replicate, dropWhile_zero_replicate]
    rfl
  · unfold specStripTrailingOnly
    rw [htake]
    rw [List.reverse_cons, List.reverse_cons, List.reverse_replicate, List.append_assoc,
      dropWhile_zero_replicate]
    rfl

/-- C4 (amended): for every seekable source, read_header returns the first
16384 bytes with null bytes stripped from BOTH ends: the result is the
16384-byte prefix minus some run of leading nulls and some run of trailing
nulls, and itself neither starts nor ends with a null byte; interior bytes
are preserved unchanged. -/
theorem read_header_strips_both_ends (f : FileObj) (hs : f.seekable = true) :
    ∃ a b core, read_header f = Except.ok core ∧
      f.contents.take HEADER_LENGTH = List.replicate a 0 ++ core ++ List.replicate b 0 ∧
      core.head? ≠ some 0 ∧ core.getLast? ≠ some 0 := by
  obtain ⟨a, b, hdec, h1, h2⟩ := stripNull_decomp (f.contents.take HEADER_LENGTH)
  refine ⟨a, b, stripNull (f.contents.take HEADER_LENGTH), ?_, hdec, h1, h2⟩
  unfold read_header
  rw [hs]
  rfl

/-- C4 witness: the amended statement at the concrete source fC4. -/
theorem read_header_strips_both_ends_witness :
    ∃ a b core, read_header fC4 = Except.ok core ∧
      fC4.contents.take HEADER_LENGTH = List.replicate a 0 ++ core ++ List.replicate b 0 ∧
      core.head? ≠ some 0 ∧ core.getLast? ≠ some 0 :=
  read_header_strips_both_ends fC4 rfl

/-! ## C6: read_header performs no length validation -/

/-- A seekable source holding only two bytes. -/
def fC6 : FileObj := ⟨[1, 2], 0, true⟩

/-- C6 counterexample: a seekable source with far fewer than 16384 bytes
does NOT fail with IOError; read_header returns the available bytes. -/
theorem read_header_c6_counterexample :
    read_header fC6 = Except.ok [1, 2] ∧ fC6.contents.length < HEADER_LENGTH := by
  refine ⟨by rfl, by decide⟩

/-- C6 (amended): read_header never checks the available length: every
seekable source succeeds (returning at most min(length, 16384) bytes), and
only an unseekable source fails (tell/seek raise
io.UnsupportedOperation, an OSError/IOError subclass). -/
theorem read_header_no_length_check (f : FileObj) :
    (f.seekable = true →
      ∃ v, read_header f = Except.ok v ∧ v.length ≤ min f.contents.length HEADER_LENGTH) ∧
    (f.seekable = false → read_header f = Except.error "io.UnsupportedOperation") := by
  constructor
  · intro hs
    refine ⟨stripNull (f.contents.take HEADER_LENGTH), ?_, ?_⟩
    · unfold read_header
      rw [hs]
      rfl
    · have h1 := stripNull_length_le (f.contents.take HEADER_LENGTH)
      have h2 : (f.contents.take HEADER_LENGTH).length = min HEADER_LENGTH f.contents.length := by
        simp
      omega
  · intro hs
    simp [read_header, hs]

/-- C6 witness: the amended statement at the concrete short source fC6 and
at a concrete unseekable source. -/
theorem read_header_no_length_check_witness :
    (∃ v, read_header fC6 = Except.ok v ∧ v.length ≤ min fC6.contents.length HEADER_LENGTH) ∧
    read_header ⟨[1, 2], 0, false⟩ = Except.error "io.UnsupportedOperation" :=
  ⟨(read_header_no_length_check fC6).1 rfl,
   (read_header_no_length_check ⟨[1, 2], 0, false⟩).2 rfl⟩

/-! ## C2: the consistency check raises on fewer than two records -/

/-- A single well-formed record. -/
def oneRec : NcsRecord := ⟨1000, 1, 32000, 512, List.replicate 512 0⟩

/-- C2 counterexample: on a single-record sequence the check does not return
a boolean; the dt[0] access raises IndexError (the same happens on the empty
sequence). -/
theorem check_ncs_records_c2_counterexample :
    check_ncs_records [oneRec] = Except.error "IndexError" ∧
    check_ncs_records [] = Except.error "IndexError" := by
  exact ⟨rfl, rfl⟩

/-- C2 (amended): for every sequence of at least two records the check is
total and non-fatal — it returns a boolean with its warnings and never
raises; for fewer than two records it raises IndexError. -/
theorem check_ncs_records_total (recs : List NcsRecord) :
    (2 ≤ recs.length → ∃ b ws, check_ncs_records recs = Except.ok (b, ws)) ∧
    (recs.length < 2 → check_ncs_records recs = Except.error "IndexError") := by
  match recs with
  | [] => exact ⟨fun h => by simp at h, fun _ => rfl⟩
  | [r] => exact ⟨fun h => by simp at h, fun _ => rfl⟩
  | r0 :: r1 :: rest =>
    constructor
    · intro _
      simp only [check_ncs_records, List.map_cons, npDiff64]
      split_ifs <;> exact ⟨_, _, rfl⟩
    · intro h
      simp at h
      omega

/-- C2 witness: the amended statement at a concrete two-record sequence. -/
theorem check_ncs_records_total_witness :
    ∃ b ws, check_ncs_records [oneRec, oneRec] = Except.ok (b, ws) :=
  (check_ncs_records_total [oneRec, oneRec]).1 (by decide)

/-! ## C7: truncation to complete records, without any warning -/

/-- For a file of HEADER_LENGTH + N * 1044 + k bytes (k < 1044), read_records
yields exactly the N records decoded from complete in-bounds 1044-byte
slices, ignores the k trailing bytes, and emits no warning at all. -/
theorem read_records_ncs_complete (f : FileObj) (N k : Nat) (hs : f.seekable = true)
    (hlen : f.contents.length = HEADER_LENGTH + N * NCS_ITEMSIZE + k) (hk : k < NCS_ITEMSIZE) :
    read_records_ncs f 0 (-1) =
      Except.ok ((List.range N).map (fun i =>
        decodeNcsChunk (byteSlice f.contents (HEADER_LENGTH + i * NCS_ITEMSIZE) NCS_ITEMSIZE)),
        []) := by
  have hdroplen : (f.contents.drop (HEADER_LENGTH + 0 * NCS_ITEMSIZE)).length = N * NCS_ITEMSIZE + k := by
    rw [List.length_drop, hlen]
    omega
  have hdiv : (f.contents.drop (HEADER_LENGTH + 0 * NCS_ITEMSIZE)).length / NCS_ITEMSIZE = N := by
    rw [hdroplen]
    have h2 : N * NCS_ITEMSIZE + k = k + NCS_ITEMSIZE * N := by ring
    rw [h2, Nat.add_mul_div_left _ _ (by norm_num [NCS_ITEMSIZE]), Nat.div_eq_of_lt hk]
    omega
  simp only [read_records_ncs, npFromfileChunks, hs, if_pos, hdiv]
  rw [if_pos (by norm_num : (-1 : Int) < 0)]
  simp only [Except.ok.injEq, Prod.mk.injEq, and_true]
  rw [List.map_map]
  apply List.map_congr_left
  intro i _
  simp only [Function.comp_apply]
  unfold byteSlice
  rw [List.drop_drop]
  congr 2

/-- The concrete truncated file of C7: header + one complete record + 17
trailing bytes, all zero. -/
def fC7 : FileObj := ⟨List.replicate (16384 + 1044 + 17) 0, 0, true⟩

theorem fC7_len : fC7.contents.length = HEADER_LENGTH + 1 * NCS_ITEMSIZE + 17 := by
  show (List.replicate (16384 + 1044 + 17) 0).length = _
  rw [List.length_replicate]
  norm_num [HEADER_LENGTH, NCS_ITEMSIZE]

/-- C7 counterexample: decoding the truncated file yields exactly one record
but the emitted warning list is EMPTY — no truncation warning exists in
read_records (the only divisibility warning lives in estimate_record_count,
which decoding never calls). -/
theorem read_records_c7_counterexample :
    (read_records_ncs fC7 0 (-1)).map (fun p => (p.1.length, p.2)) =
      Except.ok (1, ([] : List PyWarning)) := by
  have h := read_records_ncs_complete fC7 1 17 rfl fC7_len (by norm_num [NCS_ITEMSIZE])
  rw [h]
  simp [Except.map]

/-- C7 (amended): for every seekable file of HEADER_LENGTH + N×1044 + k bytes
with 0 < k < 1044, decoding yields exactly N records, each decoded from a
complete in-bounds 1044-byte slice, never touching the trailing partial
bytes — but silently: no truncation warning is emitted. -/
theorem read_records_ncs_truncates (f : FileObj) (N k : Nat) (hs : f.seekable = true)
    (hk0 : 0 < k) (hk : k < 1044)
    (hlen : f.contents.length = HEADER_LENGTH + N * 1044 + k) :
    ∃ recs, read_records_ncs f 0 (-1) = Except.ok (recs, ([] : List PyWarning)) ∧
      recs.length = N ∧
      recs = (List.range N).map (fun i =>
        decodeNcsChunk (byteSlice f.contents (HEADER_LENGTH + i * 1044) 1044)) ∧
      HEADER_LENGTH + N * 1044 ≤ f.contents.length := by
  have h := read_records_ncs_complete f N k hs hlen hk
  exact ⟨_, h, by simp, rfl, by omega⟩

/-- C7 witness: the amended statement at the concrete file fC7 (N = 1,
k = 17). -/
theorem read_records_ncs_truncates_witness :
    ∃ recs, read_records_ncs fC7 0 (-1) = Except.ok (recs, ([] : List PyWarning)) ∧
      recs.length = 1 ∧
      recs = (List.range 1).map (fun i =>
        decodeNcsChunk (byteSlice fC7.contents (HEADER_LENGTH + i * 1044) 1044)) ∧
      HEADER_LENGTH + 1 * 1044 ≤ fC7.contents.length :=
  read_records_ncs_truncates fC7 1 17 rfl (by norm_num) (by norm_num)
    (by rw [fC7_len]; norm_num [NCS_ITEMSIZE])

/-! ## C8: flattened sample count is exactly 512 × record count -/

theorem decodeNcsChunk_samples_length (chunk : List Nat) :
    (decodeNcsChunk chunk).samples.length = 512 := by
  simp [decodeNcsChunk]

theorem ncs_data_raw_blocks (recs : List NcsRecord)
    (h : ∀ r ∈ recs, r.samples.length = 512) :
    (ncs_data_raw recs).length = 512 * recs.length ∧
    ∀ i, i < recs.length →
      ((ncs_data_raw recs).drop (512 * i)).take 512 = (recs.getD i default).samples := by
  induction recs with
  | nil => exact ⟨by simp [ncs_data_raw], fun i hi => by simp at hi⟩
  | cons r t ih =>
    have hr : r.samples.length = 512 := h r (by simp)
    obtain ⟨ihlen, ihblock⟩ := ih (fun x hx => h x (by simp [hx]))
    have hcons : ncs_data_raw (r :: t) = r.samples ++ ncs_data_raw t := by
      simp [ncs_data_raw]
    constructor
    · rw [hcons, List.length_append, hr, ihlen, List.length_cons]
      ring
    · intro i hi
      match i with
      | 0 =>
        rw [hcons]
        simp only [Nat.mul_zero, List.drop_zero, List.getD_cons_zero]
        rw [List.take_append_of_le_length (by omega), List.take_of_length_le (by omega)]
      | j + 1 =>
        rw [hcons]
        have hdrop : 512 * (j + 1) = r.samples.length + 512 * j := by rw [hr]; ring
        rw [hdrop, List.drop_append, List.getD_cons_succ]
        exact ihblock j (by simpa using hi)

/-- C8 (confirmed): for every decoded continuous file, the flattened sample
sequence has length exactly 512 × record count, and the i-th 512-sample
block is exactly the i-th record's full sample array (all 512 slots, record
order), regardless of any record's declared valid-sample count. -/
theorem ncs_flatten_512_per_record (f : FileObj) (recs : List NcsRecord) (ws : List PyWarning)
    (hread : read_records_ncs f 0 (-1) = Except.ok (recs, ws)) :
    (ncs_data_raw recs).length = 512 * recs.length ∧
    ∀ i, i < recs.length →
      ((ncs_data_raw recs).drop (512 * i)).take 512 = (recs.getD i default).samples := by
  have hrecs : ∀ r ∈ recs, r.samples.length = 512 := by
    intro r hr
    unfold read_records_ncs at hread
    by_cases hs : f.seekable
    · rw [if_pos hs] at hread
      injection hread with h
      have h1 : recs = (npFromfileChunks (f.contents.drop (HEADER_LENGTH + 0 * NCS_ITEMSIZE))
          NCS_ITEMSIZE (-1)).map decodeNcsChunk := by
        have := congrArg Prod.fst h.symm
        simpa using this
      rw [h1] at hr
      obtain ⟨c, -, rfl⟩ := List.mem_map.mp hr
      exact decodeNcsChunk_samples_length c
    · rw [if_neg hs] at hread
      cases hread
  exact ncs_data_raw_blocks recs hrecs

/-- The single record decoded from fC7. -/
def recsW8 : List NcsRecord :=
  (List.range 1).map (fun i =>
    decodeNcsChunk (byteSlice fC7.contents (HEADER_LENGTH + i * NCS_ITEMSIZE) NCS_ITEMSIZE))

/-- C8 witness: the statement at the concrete one-record file fC7. -/
theorem ncs_flatten_512_per_record_witness :
    read_records_ncs fC7 0 (-1) = Except.ok (recsW8, ([] : List PyWarning)) ∧
      (ncs_data_raw recsW8).length = 512 * recsW8.length := by
  have h := read_records_ncs_complete fC7 1 17 rfl fC7_len (by norm_num [NCS_ITEMSIZE])
  exact ⟨h, (ncs_flatten_512_per_record fC7 recsW8 [] h).1⟩

/-! ## C1: the consistency check uses wrapped uint64 differences -/

/-- Three records with identical channel, rate and valid count and
timestamps 2000, 3000, 3999: consecutive gaps 1000 then 999, so
|Δt_1 − Δt_0| = 1 in exact arithmetic. -/
def recA : NcsRecord := ⟨2000, 1, 1000, 512, List.replicate 512 0⟩
def recB : NcsRecord := ⟨3000, 1, 1000, 512, List.replicate 512 0⟩
def recC : NcsRecord := ⟨3999, 1, 1000, 512, List.replicate 512 0⟩
def recsCE1 : List NcsRecord := [recA, recB, recC]

/-- C1 counterexample: all four conditions of the claim hold for recsCE1 —
in particular the spec's |Δt_i − Δt_0| ≤ 1 — yet the check returns false
with the timestamp warning, because 999 − 1000 wraps to 2^64 − 1 in uint64
arithmetic and np.abs is the identity on uint64. -/
theorem check_ncs_records_c1_counterexample :
    specRecordsSimilar recsCE1 ∧
    check_ncs_records recsCE1 = Except.ok (false, [PyWarning.userWarning dtWarnMsg]) :=
  ⟨by decide, rfl⟩

theorem check_ncs_records_cons (r0 r1 : NcsRecord) (rest : List NcsRecord) :
    check_ncs_records (r0 :: r1 :: rest) =
      (if ¬ (r0 :: r1 :: rest).all (fun r => r.channelNumber = r0.channelNumber) then
         Except.ok (false, [PyWarning.userWarning chanWarnMsg])
       else if ¬ (r0 :: r1 :: rest).all (fun r => r.sampleFreq = r0.sampleFreq) then
         Except.ok (false, [PyWarning.userWarning freqWarnMsg])
       else if ¬ (r0 :: r1 :: rest).all (fun r => r.numValidSamples = 512) then
         Except.ok (false, [PyWarning.userWarning validWarnMsg])
       else if ¬ ((npDiff64 ((r0 :: r1 :: rest).map (·.timeStamp))).map
           (fun d => u64sub d (u64sub r1.timeStamp r0.timeStamp))).all (fun d => d ≤ 1) then
         Except.ok (false, [PyWarning.userWarning dtWarnMsg])
       else Except.ok (true, [])) := rfl

/-- C1 (amended/corrected): for a sequence of at least two records the check
returns (true, no warnings) iff the channel number is constant, the sample
frequency is constant, every valid-sample count is 512, and every wrapped
uint64 quantity (Δt_i − Δt_0) mod 2^64 is at most 1 (np.abs is the identity
on uint64, so a gap one microsecond SHORTER than the first gap wraps to
2^64 − 1 and fails, unlike the spec's |Δt_i − Δt_0| ≤ 1); each of the four
violations, tested in this order, independently returns false with its own
distinct warning. -/
theorem check_ncs_records_iff (recs : List NcsRecord) (h2 : 2 ≤ recs.length) :
    (check_ncs_records recs = Except.ok (true, []) ↔
      ((∀ r ∈ recs, r.channelNumber = recs.headI.channelNumber) ∧
       (∀ r ∈ recs, r.sampleFreq = recs.headI.sampleFreq) ∧
       (∀ r ∈ recs, r.numValidSamples = 512) ∧
       (∀ d ∈ npDiff64 (recs.map (·.timeStamp)),
         u64sub d (npDiff64 (recs.map (·.timeStamp))).headI ≤ 1))) ∧
    (¬ (∀ r ∈ recs, r.channelNumber = recs.headI.channelNumber) →
      check_ncs_records recs = Except.ok (false, [PyWarning.userWarning chanWarnMsg])) ∧
    ((∀ r ∈ recs, r.channelNumber = recs.headI.channelNumber) →
     ¬ (∀ r ∈ recs, r.sampleFreq = recs.headI.sampleFreq) →
      check_ncs_records recs = Except.ok (false, [PyWarning.userWarning freqWarnMsg])) ∧
    ((∀ r ∈ recs, r.channelNumber = recs.headI.channelNumber) →
     (∀ r ∈ recs, r.sampleFreq = recs.headI.sampleFreq) →
     ¬ (∀ r ∈ recs, r.numValidSamples = 512) →
      check_ncs_records recs = Except.ok (false, [PyWarning.userWarning validWarnMsg])) ∧
    ((∀ r ∈ recs, r.channelNumber = recs.headI.channelNumber) →
     (∀ r ∈ recs, r.sampleFreq = recs.headI.sampleFreq) →
     (∀ r ∈ recs, r.numValidSamples = 512) →
     ¬ (∀ d ∈ npDiff64 (recs.map (·.timeStamp)),
         u64sub d (npDiff64 (recs.map (·.timeStamp))).headI ≤ 1) →
      check_ncs_records recs = Except.ok (false, [PyWarning.userWarning dtWarnMsg])) := by
  match recs, h2 with
  | r0 :: r1 :: rest, _ =>
  have hhead : (r0 :: r1 :: rest).headI = r0 := rfl
  have hdts0 : (npDiff64 ((r0 :: r1 :: rest).map (·.timeStamp))).headI =
      u64sub r1.timeStamp r0.timeStamp := rfl
  have hb1 : ((r0 :: r1 :: rest).all (fun r => r.channelNumber = r0.channelNumber) = true) ↔
      (∀ r ∈ r0 :: r1 :: rest, r.channelNumber = (r0 :: r1 :: rest).headI.channelNumber) := by
    rw [hhead]; simp [List.all_eq_true]
  have hb2 : ((r0 :: r1 :: rest).all (fun r => r.sampleFreq = r0.sampleFreq) = true) ↔
      (∀ r ∈ r0 :: r1 :: rest, r.sampleFreq = (r0 :: r1 :: rest).headI.sampleFreq) := by
    rw [hhead]; simp [List.all_eq_true]
  have hb3 : ((r0 :: r1 :: rest).all (fun r => r.numValidSamples = 512) = true) ↔
      (∀ r ∈ r0 :: r1 :: rest, r.numValidSamples = 512) := by
    simp [List.all_eq_true]
  have hb4 : (((npDiff64 ((r0 :: r1 :: rest).map (·.timeStamp))).map
      (fun d => u64sub d (u64sub r1.timeStamp r0.timeStamp))).all (fun d => d ≤ 1) = true) ↔
      (∀ d ∈ npDiff64 ((r0 :: r1 :: rest).map (·.timeStamp)),
        u64sub d (npDiff64 ((r0 :: r1 :: rest).map (·.timeStamp))).headI ≤ 1) := by
    rw [hdts0]
    simp [List.all_map, List.all_eq_true, Function.comp]
  refine ⟨⟨?_, ?_⟩, ?_, ?_, ?_, ?_⟩
  · intro h
    rw [check_ncs_records_cons] at h
    by_cases c1 : (r0 :: r1 :: rest).all (fun r => r.channelNumber = r0.channelNumber) = true
    case neg => rw [if_pos c1] at h; simp at h
    rw [if_neg (not_not_intro c1)] at h
    by_cases c2 : (r0 :: r1 :: rest).all (fun r => r.sampleFreq = r0.sampleFreq) = true
    case neg => rw [if_pos c2] at h; simp at h
    rw [if_neg (not_not_intro c2)] at h
    by_cases c3 : (r0 :: r1 :: rest).all (fun r => r.numValidSamples = 512) = true
    case neg => rw [if_pos c3] at h; simp at h
    rw [if_neg (not_not_intro c3)] at h
    by_cases c4 : ((npDiff64 ((r0 :: r1 :: rest).map (·.timeStamp))).map
        (fun d => u64sub d (u64sub r1.timeStamp r0.timeStamp))).all (fun d => d ≤ 1) = true
    case neg => rw [if_pos c4] at h; simp at h
    exact ⟨hb1.mp c1, hb2.mp c2, hb3.mp c3, hb4.mp c4⟩
  · rintro ⟨hc1, hc2, hc3, hc4⟩
    rw [check_ncs_records_cons]
    rw [if_neg (not_not_intro (hb1.mpr hc1)), if_neg (not_not_intro (hb2.mpr hc2)),
      if_neg (not_not_intro (hb3.mpr hc3)), if_neg (not_not_intro (hb4.mpr hc4))]
  · intro hn1
    rw [check_ncs_records_cons]
    rw [if_pos (fun hb => hn1 (hb1.mp hb))]
  · intro hc1 hn2
    rw [check_ncs_records_cons]
    rw [if_neg (not_not_intro (hb1.mpr hc1)), if_pos (fun hb => hn2 (hb2.mp hb))]
  · intro hc1 hc2 hn3
    rw [check_ncs_records_cons]
    rw [if_neg (not_not_intro (hb1.mpr hc1)), if_neg (not_not_intro (hb2.mpr hc2)),
      if_pos (fun hb => hn3 (hb3.mp hb))]
  · intro hc1 hc2 hc3 hn4
    rw [check_ncs_records_cons]
    rw [if_neg (not_not_intro (hb1.mpr hc1)), if_neg (not_not_intro (hb2.mpr hc2)),
      if_neg (not_not_intro (hb3.mpr hc3)), if_pos (fun hb => hn4 (hb4.mp hb))]

/-- Three uniformly spaced records for the C1 witness. -/
def recD : NcsRecord := ⟨4000, 1, 1000, 512, List.replicate 512 0⟩
def recsGood : List NcsRecord := [recA, recB, recD]

/-- C1 witness: the amended claim at a concrete passing sequence. -/
theorem check_ncs_records_iff_witness :
    check_ncs_records recsGood = Except.ok (true, []) :=
  (check_ncs_records_iff recsGood (by decide)).1.mpr (by decide)

/-! ## C10: time-string parsing -/

/-- A well-formed header time line: token 4 is the date, the last token the
time. -/
def goodTimeLine : Str := "## Time Opened (m/d/y): 12/25/2020 (h:m:s.ms) 13:45:30.500".data

/-- The same line with month 13: every field converts through int(), but the
datetime constructor (outside the try block) rejects the month. -/
def badTimeLine : Str := "## Time Opened (m/d/y): 13/25/2020 (h:m:s.ms) 13:45:30.500".data

/-- C10 counterexample: a malformed time string whose fields tokenize and
convert to integers but are out of range raises an uncaught ValueError from
the datetime constructor instead of yielding an absent value plus a
warning. -/
theorem parse_time_c10_counterexample :
    parse_neuralynx_time_string badTimeLine = Except.error "ValueError" := rfl

/-- C10 (amended): the concrete good line parses to 2020-12-25
13:45:30.500000 (the dot field times 1000) with no warning; moreover
whenever the parser returns at all, an absent value is always accompanied by
exactly the time-parse warning and a present value by no warning — but
out-of-range field values raise an uncaught ValueError rather than
returning. -/
theorem parse_neuralynx_time_string_ok :
    parse_neuralynx_time_string goodTimeLine =
      Except.ok (some ⟨2020, 12, 25, 13, 45, 30, 500000⟩, []) ∧
    (∀ l o w, parse_neuralynx_time_string l = Except.ok (o, w) →
      ((o = none → w = [PyWarning.userWarning (timeWarnPrefix ++ l)]) ∧
       (∀ d, o = some d → w = []))) := by
  constructor
  · rfl
  · intro l o w h
    unfold parse_neuralynx_time_string at h
    dsimp only at h
    split at h
    · simp only [Except.ok.injEq, Prod.mk.injEq] at h
      obtain ⟨ho, hw⟩ := h
      subst ho
      subst hw
      exact ⟨fun _ => rfl, fun d hd => by simp at hd⟩
    · split at h
      · rename_i y mo dd hh mi ss hy hmo hdd hhh hmi hss
        cases hmk : mkDatetime y mo dd hh mi ss _ with
        | ok dt =>
          rw [hmk] at h
          simp only [Except.map, Except.ok.injEq, Prod.mk.injEq] at h
          obtain ⟨ho, hw⟩ := h
          subst ho
          subst hw
          exact ⟨fun hn => by simp at hn, fun d _ => rfl⟩
        | error e =>
          rw [hmk] at h
          simp [Except.map] at h
      · simp at h

/-- C10 witness: the universally quantified part of the amended claim at a
concrete malformed line ("short" has no token 4). -/
theorem parse_neuralynx_time_string_ok_witness :
    parse_neuralynx_time_string "short".data =
      Except.ok (none, [PyWarning.userWarning (timeWarnPrefix ++ "short".data)]) ∧
    [PyWarning.userWarning (timeWarnPrefix ++ "short".data)] =
      [PyWarning.userWarning (timeWarnPrefix ++ "short".data)] :=
  ⟨rfl, (parse_neuralynx_time_string_ok.2 "short".data none
      [PyWarning.userWarning (timeWarnPrefix ++ "short".data)] rfl).1 rfl⟩

/-! ## C3: per-sample timestamps hold flat past the last anchor -/

theorem mem_of_getLast?_eq {α : Type} {l : List α} {x : α} (h : l.getLast? = some x) :
    x ∈ l := by
  obtain ⟨hne, hx⟩ := List.mem_getLast?_eq_getLast (l := l) (x := x) (Option.mem_def.mpr h)
  rw [hx]
  exact List.getLast_mem hne

/-- np.interp holds the last anchor value for every point at or beyond the
last anchor (no extrapolation), given strictly increasing anchors. -/
theorem npInterpPts_clamp (x : ℚ) (p q : ℚ × ℚ) (ps : List (ℚ × ℚ))
    (hchain : List.Pairwise (fun a b : ℚ × ℚ => a.1 < b.1) (p :: ps))
    (hlast : (p :: ps).getLast? = some q)
    (hx : q.1 ≤ x) :
    npInterpPts x p ps = q.2 := by
  induction ps generalizing p with
  | nil =>
    simp only [List.getLast?_singleton, Option.some.injEq] at hlast
    subst hlast
    simp [npInterpPts]
  | cons w rest ih =>
    have hpw : p.1 < w.1 := (List.pairwise_cons.mp hchain).1 w (by simp)
    have hchain' : List.Pairwise (fun a b : ℚ × ℚ => a.1 < b.1) (w :: rest) :=
      (List.pairwise_cons.mp hchain).2
    rw [List.getLast?_cons_cons] at hlast
    have hqmem : q ∈ w :: rest := mem_of_getLast?_eq hlast
    have hwq : w.1 ≤ q.1 := by
      rcases List.mem_cons.mp hqmem with heq | hmem'
      · rw [heq]
      · exact le_of_lt ((List.pairwise_cons.mp hchain').1 _ hmem')
    have hx1 : ¬ x ≤ p.1 := not_le.mpr (lt_of_lt_of_le (lt_of_lt_of_le hpw hwq) hx)
    rw [npInterpPts, if_neg hx1]
    by_cases hx2 : x ≤ w.1
    · cases rest with
      | nil =>
        rw [if_pos hx2]
        simp only [List.getLast?_singleton, Option.some.injEq] at hlast
        subst hlast
        have hq : x = w.1 := le_antisymm hx2 hx
        have hd : w.1 - p.1 ≠ 0 := sub_ne_zero.mpr (ne_of_gt hpw)
        rw [hq, mul_div_assoc, div_self hd, mul_one]
        ring
      | cons u us =>
        exfalso
        rw [List.getLast?_cons_cons] at hlast
        have hmem2 : q ∈ u :: us := mem_of_getLast?_eq hlast
        have hlt : w.1 < q.1 := (List.pairwise_cons.mp hchain').1 _ hmem2
        linarith
    · rw [if_neg hx2]
      exact ih w hchain' hlast

/-- The last element of a zip of equal-length lists. -/
theorem zip_getLast? {α β : Type} :
    ∀ (l1 : List α) (l2 : List β), l1.length = l2.length →
      ∀ a b, l1.getLast? = some a → l2.getLast? = some b →
        (l1.zip l2).getLast? = some (a, b)
  | [], _, _, a, b, ha, _ => by simp at ha
  | [x], [y], _, a, b, ha, hb => by
    simp only [List.getLast?_singleton, Option.some.injEq] at ha hb
    subst ha
    subst hb
    rfl
  | [x], y :: y2 :: t2, hlen, _, _, _, _ => by simp at hlen
  | x :: x2 :: t1, [], hlen, _, _, _, _ => by simp at hlen
  | x :: x2 :: t1, [y], hlen, _, _, _, _ => by simp at hlen
  | x :: x2 :: t1, y :: y2 :: t2, hlen, a, b, ha, hb => by
    rw [List.getLast?_cons_cons] at ha hb
    have hrec := zip_getLast? (x2 :: t1) (y2 :: t2) (by simpa using hlen) a b ha hb
    show ((x2 :: t1).zip (y2 :: t2)).getLast? = some (a, b)
    exact hrec

/-- The last element of List.range n for positive n. -/
theorem range_getLast? (n : Nat) (hn : 1 ≤ n) : (List.range n).getLast? = some (n - 1) := by
  rw [List.getLast?_eq_getElem?, List.length_range, List.getElem?_range (by omega)]

/-- The flat-hold behaviour of the per-sample timestamp derivation: every
sample index at or beyond the last record-start anchor receives the float64
image of the LAST record's start timestamp, held flat. -/
theorem ncs_times_flat_hold_core (recs : List NcsRecord) (hne : recs ≠ [])
    (hn53 : 512 * recs.length ≤ 2 ^ 53)
    (hts : ∀ r ∈ recs, f64round r.timeStamp < U64) :
    ∃ l, ncs_times recs = Except.ok l ∧ l.length = 512 * recs.length ∧
      ∀ i, 512 * (recs.length - 1) ≤ i → i < 512 * recs.length →
        l[i]? = some (f64round ((recs.getLast hne).timeStamp)) := by
  have hn : 1 ≤ recs.length := by
    cases recs with
    | nil => exact absurd rfl hne
    | cons a t => simp
  have hcount : (512 * recs.length + 512 - 1) / 512 = recs.length := by
    have h2 : 512 * recs.length + 512 - 1 = 511 + 512 * recs.length := by omega
    rw [h2, Nat.add_mul_div_left _ _ (by norm_num)]
    norm_num
  have hcount' : (512 * recs.length + 511) / 512 = recs.length := by
    have h2 : 512 * recs.length + 511 = 511 + 512 * recs.length := by omega
    rw [h2, Nat.add_mul_div_left _ _ (by norm_num)]
    norm_num
  set xs : List ℚ := (List.range (512 * recs.length)).map
    (fun i => (Nat.cast (f64round i) : ℚ)) with hxs
  set xp : List ℚ := (npArangeStep (512 * recs.length) 512).map
    (fun a => (Nat.cast (f64round a) : ℚ)) with hxp
  set fp : List ℚ := recs.map (fun r => (Nat.cast (f64round r.timeStamp) : ℚ)) with hfp
  have hxs_eq : xs = (List.range (512 * recs.length)).map (Nat.cast : Nat → ℚ) := by
    rw [hxs]
    apply List.map_congr_left
    intro i hi
    have hilt := List.mem_range.mp hi
    rw [f64round_eq_self (by omega)]
  have hxp_eq : xp = (npArangeStep (512 * recs.length) 512).map (Nat.cast : Nat → ℚ) := by
    rw [hxp]
    apply List.map_congr_left
    intro a ha
    unfold npArangeStep at ha
    obtain ⟨j, hj, rfl⟩ := List.mem_map.mp ha
    have hjlt := List.mem_range.mp hj
    rw [hcount] at hjlt
    rw [f64round_eq_self (by omega)]
  have hxp_len : xp.length = recs.length := by
    simp [hxp, npArangeStep, hcount']
  have hfp_len : fp.length = recs.length := by simp [hfp]
  have hzl_len : (xp.zip fp).length = recs.length := by
    simp [List.length_zip, hxp_len, hfp_len]
  obtain ⟨p, ps, hzip⟩ : ∃ p ps, xp.zip fp = p :: ps := by
    cases hz : xp.zip fp with
    | nil =>
      have hl := congrArg List.length hz
      rw [hzl_len] at hl
      simp only [List.length_nil] at hl
      omega
    | cons p ps => exact ⟨p, ps, rfl⟩
  have hchain : List.Pairwise (fun a b : ℚ × ℚ => a.1 < b.1) (p :: ps) := by
    rw [← hzip]
    rw [← List.pairwise_map (f := Prod.fst)]
    rw [List.map_fst_zip _ _ (by rw [hxp_len, hfp_len])]
    rw [hxp_eq, npArangeStep, hcount]
    rw [List.pairwise_map, List.pairwise_map]
    exact (List.pairwise_lt_range recs.length).imp (by
      intro a b hab
      have hm : a * 512 < b * 512 := by omega
      exact_mod_cast hm)
  have hxplast : xp.getLast? = some (((recs.length - 1) * 512 : Nat) : ℚ) := by
    rw [hxp_eq, npArangeStep, hcount, List.getLast?_map, List.getLast?_map,
      range_getLast? recs.length hn]
    rfl
  have hfplast : fp.getLast? = some ((f64round (recs.getLast hne).timeStamp : ℚ)) := by
    rw [hfp, List.getLast?_map, List.getLast?_eq_getLast recs hne]
    rfl
  have hzlast : (p :: ps).getLast? =
      some ((((recs.length - 1) * 512 : Nat) : ℚ),
        ((f64round (recs.getLast hne).timeStamp : ℚ))) := by
    rw [← hzip]
    exact zip_getLast? xp fp (by rw [hxp_len, hfp_len]) _ _ hxplast hfplast
  have harr : npInterpArr xs xp fp = Except.ok (xs.map (fun x => npInterpPts x p ps)) := by
    unfold npInterpArr
    rw [if_pos (by rw [hxp_len, hfp_len]), hzip]
  have htimes : ncs_times recs =
      Except.ok ((xs.map (fun x => npInterpPts x p ps)).map u64OfRat) := by
    unfold ncs_times
    dsimp only
    rw [← hxs, ← hxp, ← hfp, harr]
    rfl
  refine ⟨_, htimes, ?_, ?_⟩
  · simp [hxs]
  · intro i h1 h2
    rw [List.getElem?_map]
    rw [hxs_eq, List.getElem?_map, List.getElem?_map, List.getElem?_range h2]
    simp only [Option.map_some']
    have hxle : ((((recs.length - 1) * 512 : Nat) : ℚ)) ≤ ((i : Nat) : ℚ) := by
      have hle : (recs.length - 1) * 512 ≤ i := by omega
      exact_mod_cast hle
    rw [npInterpPts_clamp _ p _ ps hchain hzlast hxle]
    unfold u64OfRat
    rw [Int.floor_natCast, Int.toNat_natCast,
      Nat.mod_eq_of_lt (hts _ (List.getLast_mem hne))]

/-- A two-record file: anchors at sample indices 0 and 512 with timestamps 0
and 512000 (gap 1000 µs per sample). -/
def recT0 : NcsRecord := ⟨0, 1, 1000, 512, List.replicate 512 0⟩
def recT1 : NcsRecord := ⟨512000, 1, 1000, 512, List.replicate 512 0⟩
def recsC3 : List NcsRecord := [recT0, recT1]

/-- C3 counterexample: sample index 600 lies beyond the last anchor (512).
The derived timestamp is 512000 — the last anchor value held flat — which
violates the spec's extrapolation relation (the preceding gap's slope forces
600000 there). -/
theorem ncs_times_c3_counterexample :
    (ncs_times recsC3).map (fun l => l[600]?) = Except.ok (some 512000) ∧
    ¬ specExtrapRel 0 512000 512 600 512000 ∧
    specExtrapRel 0 512000 512 600 600000 := by
  refine ⟨?_, by decide, by decide⟩
  obtain ⟨l, hl, hlen, helts⟩ :=
    ncs_times_flat_hold_core recsC3 (by decide) (by decide) (by decide)
  rw [hl]
  have h := helts 600 (by decide) (by decide)
  simp only [Except.map, h]
  rfl

/-- C3 (amended/corrected): the samples of the final record beyond the last
record-start anchor do NOT extrapolate; np.interp holds the last anchor's
value flat, so every trailing sample of the final record receives the final
record's start timestamp as converted to float64 (f64round — the identity
for timestamps up to 2^53, rounding above), under the anchor-exactness bound
512 * record count ≤ 2^53. -/
theorem ncs_times_flat_hold (recs : List NcsRecord) (hne : recs ≠ [])
    (hn53 : 512 * recs.length ≤ 2 ^ 53)
    (hts : ∀ r ∈ recs, f64round r.timeStamp < U64) :
    ∃ l, ncs_times recs = Except.ok l ∧ l.length = 512 * recs.length ∧
      ∀ i, 512 * (recs.length - 1) ≤ i → i < 512 * recs.length →
        l[i]? = some (f64round ((recs.getLast hne).timeStamp)) :=
  ncs_times_flat_hold_core recs hne hn53 hts

/-- C3 witness: the amended claim at the concrete two-record file, sample
index 1023. -/
theorem ncs_times_flat_hold_witness :
    ∃ l, ncs_times recsC3 = Except.ok l ∧ l.length = 1024 ∧ l[1023]? = some 512000 := by
  obtain ⟨l, hl, hlen, helts⟩ :=
    ncs_times_flat_hold recsC3 (by decide) (by decide) (by decide)
  refine ⟨l, hl, by rw [hlen]; rfl, ?_⟩
  have h := helts 1023 (by decide) (by decide)
  rw [h]
  rfl

/-! ## C5: header parsing is robust only for headers with four lines -/

theorem paramStep_warn_mono (acc : Dict × List PyWarning) (line : Str) (w : PyWarning)
    (h : w ∈ acc.2) : w ∈ (paramStep acc line).2 := by
  unfold paramStep
  split
  · exact h
  · exact List.mem_append_left _ h

theorem foldl_paramStep_warn_mono (params : List Str) (acc : Dict × List PyWarning)
    (w : PyWarning) (h : w ∈ acc.2) : w ∈ (params.foldl paramStep acc).2 := by
  induction params generalizing acc with
  | nil => exact h
  | cons l t ih => exact ih _ (paramStep_warn_mono _ _ _ h)

theorem foldl_paramStep_warn_of_bad (params : List Str) (acc : Dict × List PyWarning)
    (line : Str) (hmem : line ∈ params) (hbad : (words (line.drop 1)).length ≠ 2) :
    PyWarning.userWarning (paramWarnPrefix ++ line) ∈ (params.foldl paramStep acc).2 := by
  induction params generalizing acc with
  | nil => simp at hmem
  | cons l t ih =>
    rcases List.mem_cons.mp hmem with heq | hmem'
    · subst heq
      rw [List.foldl_cons]
      apply foldl_paramStep_warn_mono
      unfold paramStep
      split
      · rename_i n v heq2
        exact absurd (by rw [heq2]; rfl) hbad
      · exact List.mem_append_right _ (by simp)
    · rw [List.foldl_cons]
      exact ih _ hmem'

/-- An empty byte sequence: zero nonempty header lines. -/
def rawEmptyHdr : List Nat := []

/-- C5 counterexample: parse_header on an empty raw header raises IndexError
(the hdr_lines[0] access) instead of returning a mapping; the same happens
for any header with fewer than four nonempty lines. -/
theorem parse_header_c5_counterexample :
    parse_header rawEmptyHdr = Except.error "IndexError" := rfl

/-- C5 (amended): parse_header returns a mapping — skipping each malformed
parameter line with a surfaced warning — for every raw header with at least
four nonempty lines on which the time-string parser RETURNS for the two
time lines (rather than raising: the datetime construction and the
tmp_date indexing sit outside the try, so a time line with out-of-range
fields propagates ValueError and one whose date token has fewer than three
'/'-fields propagates IndexError); headers with fewer than four nonempty
lines raise IndexError at the unguarded line accesses. -/
theorem parse_header_robust (raw : List Nat) :
    ((hdrLinesOf raw).length < 4 → parse_header raw = Except.error "IndexError") ∧
    (∀ l0 l1 l2 l3 rest p2 p3, hdrLinesOf raw = l0 :: l1 :: l2 :: l3 :: rest →
      parse_neuralynx_time_string l2 = Except.ok p2 →
      parse_neuralynx_time_string l3 = Except.ok p3 →
      ∃ d ws, parse_header raw = Except.ok (d, ws) ∧
        ∀ line ∈ rest, (words (line.drop 1)).length ≠ 2 →
          PyWarning.userWarning (paramWarnPrefix ++ line) ∈ ws) := by
  constructor
  · intro h4
    unfold parse_header
    rcases hls : hdrLinesOf raw with _ | ⟨a, _ | ⟨b, _ | ⟨c, _ | ⟨d, t⟩⟩⟩⟩
    · rfl
    · rfl
    · rfl
    · rfl
    · rw [hls] at h4
      simp at h4
      omega
  · intro l0 l1 l2 l3 rest p2 p3 hsh h2 h3
    unfold parse_header
    rw [hsh]
    have hbind : ∀ (a : Option DateTime × List PyWarning)
        (f : (Option DateTime × List PyWarning) → Except String (Dict × List PyWarning)),
        Bind.bind (Except.ok a) f = f a := fun _ _ => rfl
    simp only [parse_header_lines, h2, h3, hbind]
    refine ⟨_, _, rfl, ?_⟩
    intro line hmem hbad
    exact List.mem_append_right _ (foldl_paramStep_warn_of_bad rest _ line hmem hbad)

/-- A minimal four-line header plus one malformed parameter line. -/
def rawC5 : List Nat :=
  ("######## Neuralynx Data File Header\r\n## File Name test.ncs\r\nopen\r\nclose\r\nbadline".data).map Char.toNat

/-- C5 witness: the amended claim at the concrete header rawC5, whose last
line cannot be unpacked into "-NAME VALUE" and is skipped with its
warning. -/
theorem parse_header_robust_witness :
    ∃ d ws, parse_header rawC5 = Except.ok (d, ws) ∧
      PyWarning.userWarning (paramWarnPrefix ++ "badline".data) ∈ ws := by
  obtain ⟨d, ws, hok, hwarn⟩ := (parse_header_robust rawC5).2
    "######## Neuralynx Data File Header".data "## File Name test.ncs".data
    "open".data "close".data ["badline".data]
    (none, [PyWarning.userWarning (timeWarnPrefix ++ "open".data)])
    (none, [PyWarning.userWarning (timeWarnPrefix ++ "close".data)])
    (by rfl) (by rfl) (by rfl)
  exact ⟨d, ws, hok, hwarn "badline".data (by simp) (by decide)⟩

/-! ## C9: header round-trip -/

/-- Join lines with CRLF (the synthetic header construction of the claim). -/
def joinCRLF : List Str → Str
  | [] => []
  | [l] => l
  | l :: ls => l ++ '\r' :: '\n' :: joinCRLF ls

/-- The fixed file-name line of the synthetic header. -/
def fnLineC : Str := "## File Name test.ncs".data

/-- The fixed close-time line of the synthetic header. -/
def closeLineC : Str := "## Time Closed (m/d/y): 12/25/2020 (h:m:s.ms) 14:45:30.500".data

/-- A parameter line "-NAME VALUE". -/
def paramLineOf (p : Str × Str) : Str := '-' :: (p.1 ++ ' ' :: p.2)

/-- The synthetic header lines: banner, file-name, open-time and close-time
lines followed by the parameter lines. -/
def buildHeaderLines (ps : List (Str × Str)) : List Str :=
  bannerLine :: fnLineC :: goodTimeLine :: closeLineC :: ps.map paramLineOf

/-- The synthetic raw header bytes (latin-1 encoding of the joined lines). -/
def buildHeaderBytes (ps : List (Str × Str)) : List Nat :=
  (joinCRLF (buildHeaderLines ps)).map Char.toNat

/-- A usable parameter token: nonempty, free of every CPython whitespace
character (str.split's separators, including U+001C through U+001F), and
encodable in iso-8859-1 (every code point below 256, so the token survives
the byte encoding of the synthetic header). -/
def goodToken (s : Str) : Prop :=
  s ≠ [] ∧ (∀ c ∈ s, pyIsSpace c = false) ∧ ∀ c ∈ s, c.toNat < 256

instance (s : Str) : Decidable (goodToken s) := by
  unfold goodToken
  infer_instance

/-- A line without CR or LF characters. -/
def noCRLF (l : Str) : Prop := ∀ c ∈ l, c ≠ '\r' ∧ c ≠ '\n'

instance (l : Str) : Decidable (noCRLF l) := by
  unfold noCRLF
  infer_instance

/-- The five keys parse_header reserves for its derived fields. -/
def reservedKeys : List Str :=
  ["FileName".data, "TimeOpened".data, "TimeOpened_dt".data,
   "TimeClosed".data, "TimeClosed_dt".data]

theorem splitCRLF_cons_ne (c : Char) (t : Str) (hc : c ≠ '\r') :
    splitCRLF (c :: t) =
      (match splitCRLF t with
       | [] => [[c]]
       | h :: t' => (c :: h) :: t') := by
  rw [splitCRLF.eq_def]
  split
  · rename_i heq
    cases heq
  · rename_i heq
    rw [List.cons.injEq] at heq
    exact absurd heq.1 hc
  · rename_i c' rest hne heq
    rw [List.cons.injEq] at heq
    obtain ⟨hc', hrest⟩ := heq
    subst hc'
    subst hrest
    rfl

theorem splitCRLF_single (l : Str) (h : noCRLF l) : splitCRLF l = [l] := by
  induction l with
  | nil => rfl
  | cons c t ih =>
    have hc := (h c (by simp)).1
    rw [splitCRLF_cons_ne c t hc, ih (fun x hx => h x (by simp [hx]))]

theorem splitCRLF_append (l s : Str) (h : noCRLF l) :
    splitCRLF (l ++ '\r' :: '\n' :: s) = l :: splitCRLF s := by
  induction l with
  | nil => rfl
  | cons c t ih =>
    have hc := (h c (by simp)).1
    rw [List.cons_append, splitCRLF_cons_ne c _ hc,
      ih (fun x hx => h x (by simp [hx]))]

theorem splitCRLF_joinCRLF (ls : List Str) (hne : ls ≠ []) (h : ∀ l ∈ ls, noCRLF l) :
    splitCRLF (joinCRLF ls) = ls := by
  induction ls with
  | nil => exact absurd rfl hne
  | cons l t ih =>
    cases t with
    | nil => exact splitCRLF_single l (h l (by simp))
    | cons l2 t2 =>
      rw [show joinCRLF (l :: l2 :: t2) = l ++ '\r' :: '\n' :: joinCRLF (l2 :: t2) from rfl]
      rw [splitCRLF_append l _ (h l (by simp))]
      rw [ih (by simp) (fun x hx => h x (by simp [hx]))]

theorem pyStrip_eq_self (l : Str)
    (hhead : ∀ c, l.head? = some c → pyIsSpace c = false)
    (hlast : ∀ c, l.getLast? = some c → pyIsSpace c = false) : pyStrip l = l := by
  cases hl : l with
  | nil => rfl
  | cons c t =>
    unfold pyStrip
    rw [List.dropWhile_cons, if_neg (by simp [hhead c (by rw [hl]; rfl)])]
    cases hrev : (c :: t).reverse with
    | nil => simp at hrev
    | cons d w =>
      have hd : pyIsSpace d = false := by
        apply hlast
        rw [hl, ← List.head?_reverse, hrev]
        rfl
      rw [List.dropWhile_cons, if_neg (by simp [hd]), ← hrev, List.reverse_reverse]

theorem wordsAux_nonspace (t : Str) (h : ∀ c ∈ t, pyIsSpace c = false) :
    ∀ (rest acc : Str), wordsAux (t ++ rest) acc = wordsAux rest (t.reverse ++ acc) := by
  induction t with
  | nil => intro rest acc; simp
  | cons c u ih =>
    intro rest acc
    have hc := h c (by simp)
    rw [List.cons_append]
    show wordsAux (c :: (u ++ rest)) acc = _
    rw [wordsAux, if_neg (by simp [hc])]
    rw [ih (fun x hx => h x (by simp [hx])) rest (c :: acc)]
    congr 1
    rw [List.reverse_cons, List.append_assoc]
    rfl

theorem words_single (t : Str) (ht : t ≠ []) (h : ∀ c ∈ t, pyIsSpace c = false) :
    words t = [t] := by
  unfold words
  have haux := wordsAux_nonspace t h [] []
  rw [List.append_nil] at haux
  rw [haux, wordsAux]
  rw [if_neg (by simp [ht]), List.append_nil, List.reverse_reverse]

theorem words_token_append (t s : Str) (ht : t ≠ []) (h : ∀ c ∈ t, pyIsSpace c = false) :
    words (t ++ ' ' :: s) = t :: words s := by
  unfold words
  rw [wordsAux_nonspace t h (' ' :: s) []]
  rw [wordsAux, if_pos (by rfl), if_neg (by simp [ht]), List.append_nil,
    List.reverse_reverse]

theorem find?_map_update (d : Dict) (k : Str) (v : HdrVal) :
    List.find? (fun p => p.1 = k) (d.map (fun p => if p.1 = k then (k, v) else p)) =
      (if d.any (fun p => p.1 = k) then some (k, v) else none) := by
  induction d with
  | nil => rfl
  | cons q t ih =>
    rw [List.map_cons]
    by_cases hq : q.1 = k
    · rw [if_pos hq]
      have h1 : (decide (((k, v) : Str × HdrVal).1 = k)) = true := by simp
      have hany : (q :: t).any (fun p => p.1 = k) = true :=
        List.any_eq_true.mpr ⟨q, by simp, by simp [hq]⟩
      simp only [List.find?_cons, h1]
      rw [if_pos hany]
      rfl
    · rw [if_neg hq]
      have h2 : (decide (q.1 = k)) = false := by simp [hq]
      simp only [List.find?_cons, h2]
      rw [ih, List.any_cons]
      simp only [h2, Bool.false_or]

theorem dictGet_insert_self (d : Dict) (k : Str) (v : HdrVal) :
    dictGet (dictInsert d k v) k = some v := by
  unfold dictInsert dictGet
  by_cases hany : d.any (fun p => p.1 = k) = true
  · rw [if_pos hany, find?_map_update, if_pos hany]
    rfl
  · rw [if_neg hany, List.find?_append]
    have hnone : List.find? (fun p => p.1 = k) d = none := by
      rw [List.find?_eq_none]
      intro x hx
      simp only [decide_eq_true_eq]
      intro hxk
      exact hany (List.any_eq_true.mpr ⟨x, hx, by simp [hxk]⟩)
    rw [hnone]
    have ht : List.find? (fun p => p.1 = k) [(k, v)] = some (k, v) := by
      have hd : (decide (((k, v) : Str × HdrVal).1 = k)) = true := by simp
      simp only [List.find?_cons, hd]
      rfl
    rw [Option.none_or, ht]
    rfl

theorem find?_map_update_ne (d : Dict) (k n : Str) (v : HdrVal) (hne : n ≠ k) :
    List.find? (fun p => p.1 = n) (d.map (fun p => if p.1 = k then (k, v) else p)) =
      List.find? (fun p => p.1 = n) d := by
  induction d with
  | nil => rfl
  | cons q t ih =>
    rw [List.map_cons]
    by_cases hq : q.1 = k
    · rw [if_pos hq]
      have h1 : (decide (((k, v) : Str × HdrVal).1 = n)) = false := by
        simp
        exact fun hc => hne hc.symm
      have h2 : (decide (q.1 = n)) = false := by
        simp [hq]
        exact fun hc => hne hc.symm
      rw [List.find?_cons, List.find?_cons, h1, h2]
      exact ih
    · rw [if_neg hq, List.find?_cons, List.find?_cons]
      by_cases hqn : q.1 = n
      · have h2 : (decide (q.1 = n)) = true := by simp [hqn]
        rw [h2]
      · have h2 : (decide (q.1 = n)) = false := by simp [hqn]
        rw [h2]
        exact ih

theorem dictGet_insert_ne (d : Dict) (k n : Str) (v : HdrVal) (hne : n ≠ k) :
    dictGet (dictInsert d k v) n = dictGet d n := by
  unfold dictInsert dictGet
  by_cases hany : d.any (fun p => p.1 = k) = true
  · rw [if_pos hany, find?_map_update_ne d k n v hne]
  · rw [if_neg hany, List.find?_append]
    have h1 : List.find? (fun p => p.1 = n) [(k, v)] = none := by
      rw [List.find?_eq_none]
      intro x hx
      simp only [List.mem_singleton] at hx
      subst hx
      simp only [decide_eq_true_eq]
      exact fun hc => hne hc.symm
    rw [h1, Option.or_none]

theorem dictGet_foldl_insert_not_mem (ps : List (Str × Str)) (d : Dict) (n : Str)
    (h : n ∉ ps.map Prod.fst) :
    dictGet (ps.foldl (fun acc p => dictInsert acc p.1 (HdrVal.vstr p.2)) d) n =
      dictGet d n := by
  induction ps generalizing d with
  | nil => rfl
  | cons q t ih =>
    simp only [List.map_cons, List.mem_cons, not_or] at h
    rw [List.foldl_cons, ih _ (by exact h.2)]
    exact dictGet_insert_ne d q.1 n _ h.1

theorem dictGet_foldl_insert_mem (ps : List (Str × Str)) (d : Dict) (p : Str × Str)
    (hmem : p ∈ ps) (hnodup : (ps.map Prod.fst).Nodup) :
    dictGet (ps.foldl (fun acc q => dictInsert acc q.1 (HdrVal.vstr q.2)) d) p.1 =
      some (HdrVal.vstr p.2) := by
  induction ps generalizing d with
  | nil => simp at hmem
  | cons q t ih =>
    rw [List.map_cons, List.nodup_cons] at hnodup
    rw [List.foldl_cons]
    rcases List.mem_cons.mp hmem with heq | hmem'
    · subst heq
      rw [dictGet_foldl_insert_not_mem t _ _ hnodup.1]
      exact dictGet_insert_self d p.1 _
    · exact ih _ hmem' hnodup.2


theorem map_ofNat_toNat (l : List Char) : l.map (fun c => Char.ofNat c.toNat) = l := by
  induction l with
  | nil => rfl
  | cons c t ih => rw [List.map_cons, Char.ofNat_toNat, ih]

theorem nonspace_noCRLF (s : Str) (h : ∀ c ∈ s, pyIsSpace c = false) : noCRLF s := by
  intro c hc
  have hns := h c hc
  constructor
  · intro heq
    rw [heq] at hns
    exact absurd hns (by decide)
  · intro heq
    rw [heq] at hns
    exact absurd hns (by decide)

theorem hdrLinesOf_build (ps : List (Str × Str))
    (hgood : ∀ p ∈ ps, goodToken p.1 ∧ goodToken p.2) :
    hdrLinesOf (buildHeaderBytes ps) = buildHeaderLines ps := by
  have hnoCRLF : ∀ l ∈ buildHeaderLines ps, noCRLF l := by
    intro l hl
    simp only [buildHeaderLines, List.mem_cons] at hl
    rcases hl with rfl | rfl | rfl | rfl | hp
    · decide
    · decide
    · decide
    · decide
    · obtain ⟨p, hpmem, rfl⟩ := List.mem_map.mp hp
      obtain ⟨⟨h1ne, h1ns, -⟩, ⟨h2ne, h2ns, -⟩⟩ := hgood p hpmem
      intro c hc
      unfold paramLineOf at hc
      rcases List.mem_cons.mp hc with rfl | hc'
      · exact ⟨by decide, by decide⟩
      rcases List.mem_append.mp hc' with hcn | hcv
      · exact nonspace_noCRLF p.1 h1ns c hcn
      rcases List.mem_cons.mp hcv with rfl | hcv'
      · exact ⟨by decide, by decide⟩
      · exact nonspace_noCRLF p.2 h2ns c hcv'
  have hnonempty : ∀ l ∈ buildHeaderLines ps, l ≠ [] := by
    intro l hl
    simp only [buildHeaderLines, List.mem_cons] at hl
    rcases hl with rfl | rfl | rfl | rfl | hp
    · decide
    · decide
    · decide
    · decide
    · obtain ⟨p, hpmem, rfl⟩ := List.mem_map.mp hp
      unfold paramLineOf
      simp
  have hstrip : ∀ l ∈ buildHeaderLines ps, pyStrip l = l := by
    intro l hl
    simp only [buildHeaderLines, List.mem_cons] at hl
    rcases hl with rfl | rfl | rfl | rfl | hp
    · decide
    · decide
    · decide
    · decide
    · obtain ⟨p, hpmem, rfl⟩ := List.mem_map.mp hp
      obtain ⟨⟨h1ne, h1ns, -⟩, ⟨h2ne, h2ns, -⟩⟩ := hgood p hpmem
      apply pyStrip_eq_self
      · intro c hc
        unfold paramLineOf at hc
        simp only [List.head?_cons, Option.some.injEq] at hc
        rw [← hc]
        decide
      · intro c hc
        have hline : paramLineOf p = (('-' :: p.1) ++ [' ']) ++ p.2 := by
          unfold paramLineOf
          simp
        rw [hline, List.getLast?_append_of_ne_nil _ h2ne] at hc
        exact h2ns c (mem_of_getLast?_eq hc)
  unfold hdrLinesOf buildHeaderBytes
  rw [List.map_map]
  rw [show (Char.ofNat ∘ Char.toNat) = (fun c => Char.ofNat c.toNat) from rfl]
  rw [map_ofNat_toNat]
  rw [splitCRLF_joinCRLF _ (by simp [buildHeaderLines]) hnoCRLF]
  rw [List.filter_eq_self.mpr (by intro a ha; simpa using hnonempty a ha)]
  rw [List.map_congr_left (fun l hl => hstrip l hl), List.map_id']

/-- The dictionary contributed by the four fixed leading lines of the
synthetic header (file name, raw time strings, parsed datetimes). -/
def baseDict : Dict :=
  [("FileName".data, HdrVal.vstr "test.ncs".data),
   ("TimeOpened".data,
     HdrVal.vstr "Time Opened (m/d/y): 12/25/2020 (h:m:s.ms) 13:45:30.500".data),
   ("TimeOpened_dt".data, HdrVal.vdt (some ⟨2020, 12, 25, 13, 45, 30, 500000⟩)),
   ("TimeClosed".data,
     HdrVal.vstr "Time Closed (m/d/y): 12/25/2020 (h:m:s.ms) 14:45:30.500".data),
   ("TimeClosed_dt".data, HdrVal.vdt (some ⟨2020, 12, 25, 14, 45, 30, 500000⟩))]

set_option maxRecDepth 4000 in
theorem parse_build_lines (params : List Str) :
    parse_header_lines (bannerLine :: fnLineC :: goodTimeLine :: closeLineC :: params) =
      Except.ok ((params.foldl paramStep (baseDict, [])).1,
        (params.foldl paramStep (baseDict, [])).2) := rfl

theorem foldl_paramStep_good (ps : List (Str × Str))
    (hgood : ∀ p ∈ ps, goodToken p.1 ∧ goodToken p.2) :
    ∀ (acc : Dict × List PyWarning),
      (ps.map paramLineOf).foldl paramStep acc =
        (ps.foldl (fun d p => dictInsert d p.1 (HdrVal.vstr p.2)) acc.1, acc.2) := by
  induction ps with
  | nil => intro acc; rfl
  | cons q t ih =>
    intro acc
    obtain ⟨⟨h1ne, h1ns, -⟩, ⟨h2ne, h2ns, -⟩⟩ := hgood q (by simp)
    rw [List.map_cons, List.foldl_cons, List.foldl_cons]
    have hstep : paramStep acc (paramLineOf q) =
        (dictInsert acc.1 q.1 (HdrVal.vstr q.2), acc.2) := by
      unfold paramStep paramLineOf
      rw [show ('-' :: (q.1 ++ ' ' :: q.2)).drop 1 = q.1 ++ ' ' :: q.2 from rfl]
      rw [words_token_append q.1 q.2 h1ne h1ns, words_single q.2 h2ne h2ns]
    rw [hstep]
    exact ih (fun p hp => hgood p (by simp [hp])) _

/-- C9 (confirmed): for every synthetic header built from the banner,
file-name, open-time and close-time lines followed by any finite list of
"-NAME VALUE" parameter lines with unique names and single good tokens
(nonempty, free of every CPython whitespace character including U+001C
through U+001F, and iso-8859-1 encodable), in any order, parse_header
recovers exactly that name-to-value mapping: every parameter name maps to
its value, and every other key except the five reserved derived fields is
absent. -/
theorem parse_header_roundtrip (ps : List (Str × Str))
    (hgood : ∀ p ∈ ps, goodToken p.1 ∧ goodToken p.2)
    (hnodup : (ps.map Prod.fst).Nodup) :
    ∃ d ws, parse_header (buildHeaderBytes ps) = Except.ok (d, ws) ∧
      (∀ p ∈ ps, dictGet d p.1 = some (HdrVal.vstr p.2)) ∧
      (∀ n, n ∉ ps.map Prod.fst → n ∉ reservedKeys → dictGet d n = none) := by
  have hlines := hdrLinesOf_build ps hgood
  have hparse : parse_header (buildHeaderBytes ps) = Except.ok
      (ps.foldl (fun d p => dictInsert d p.1 (HdrVal.vstr p.2)) baseDict, []) := by
    unfold parse_header
    rw [hlines]
    rw [show buildHeaderLines ps =
      bannerLine :: fnLineC :: goodTimeLine :: closeLineC :: ps.map paramLineOf from rfl]
    rw [parse_build_lines, foldl_paramStep_good ps hgood (baseDict, [])]
  refine ⟨_, _, hparse, ?_, ?_⟩
  · intro p hp
    exact dictGet_foldl_insert_mem ps baseDict p hp hnodup
  · intro n hn hres
    rw [dictGet_foldl_insert_not_mem ps baseDict n hn]
    unfold dictGet
    have hfind : List.find? (fun p => p.1 = n) baseDict = none := by
      rw [List.find?_eq_none]
      intro x hx
      simp only [baseDict, List.mem_cons, List.not_mem_nil, or_false] at hx
      simp only [decide_eq_true_eq]
      rcases hx with rfl | rfl | rfl | rfl | rfl
      · exact fun heq => hres (heq ▸ (by decide : "FileName".data ∈ reservedKeys))
      · exact fun heq => hres (heq ▸ (by decide : "TimeOpened".data ∈ reservedKeys))
      · exact fun heq => hres (heq ▸ (by decide : "TimeOpened_dt".data ∈ reservedKeys))
      · exact fun heq => hres (heq ▸ (by decide : "TimeClosed".data ∈ reservedKeys))
      · exact fun heq => hres (heq ▸ (by decide : "TimeClosed_dt".data ∈ reservedKeys))
    rw [hfind]
    rfl

/-- The concrete parameter list of the C9 witness. -/
def psW : List (Str × Str) := [("TestParam".data, "123".data)]

/-- C9 witness: the round-trip at a concrete one-parameter header. -/
theorem parse_header_roundtrip_witness :
    ∃ d ws, parse_header (buildHeaderBytes psW) = Except.ok (d, ws) ∧
      dictGet d "TestParam".data = some (HdrVal.vstr "123".data) ∧
      dictGet d "Missing".data = none := by
  obtain ⟨d, ws, hok, hmem, hnone⟩ := parse_header_roundtrip psW (by decide) (by decide)
  exact ⟨d, ws, hok,
    hmem ("TestParam".data, "123".data) (by simp [psW]),
    hnone "Missing".data (by decide) (by decide)⟩

end NeuralynxIO
